import Mathlib

/-!
Verification development for the opal replication engine.

The definitions below embed the replica orchestration found in
src/replica/index.ts (Replica.add, Replica.write, Replica.has,
Replica.known, the starting routine, getRoot, setRoot, updateRoot),
the static access controller, the Welo database factory open method,
and the shared head codec of the replicator protocols.

Entry hashes (CIDs) are modelled as natural numbers, byte strings as
lists of naturals, and the four Graph partitions as finite sets of
hashes.  The Graph data structure itself is not part of the provided
sources, so it is modelled from the spec (section 4.1); every other
definition is translated directly from the TypeScript source.
-/

/-- Notifications dispatched on the replica event emitter. -/
inductive Ev
  | write
  | update
deriving DecidableEq, Repr

/-- Insert a hash into a partition list unless already present. -/
def linsert (a : Nat) (l : List Nat) : List Nat :=
  if a ∈ l then l else a :: l

/-- Remove a hash from a partition list. -/
def lerase (a : Nat) (l : List Nat) : List Nat :=
  l.filter (fun x => decide (x ≠ a))

/-- Remove every hash of the second list from the first. -/
def ldiff (l rem : List Nat) : List Nat :=
  l.filter (fun x => decide (x ∉ rem))

/-- Union of two partition lists without duplicating members. -/
def lunion (l1 l2 : List Nat) : List Nat :=
  l1.filter (fun x => decide (x ∉ l2)) ++ l2

/-- A snapshot of the four partition roots, persisted as one block.
Modelled from the spec: GraphRoot holds the content hashes of the
heads, tails, missing and denied partitions. -/
structure GraphRoot where
  heads : List Nat
  tails : List Nat
  missing : List Nat
  denied : List Nat
deriving DecidableEq

/-- Blocks persisted through the content addressed store: entry
blocks, identity blocks and encoded GraphRoot blocks. -/
inductive Blk
  | entry (cid : Nat)
  | ident (id : List Nat)
  | rootBlk (r : GraphRoot)
deriving DecidableEq

/-- An immutable signed entry: content hash, database tag, payload,
next pointers to predecessor entries, and the signer identity id. -/
structure Entry where
  cid : Nat
  tag : List Nat
  payload : Nat
  next : List Nat
  identityId : List Nat
deriving DecidableEq

/-- Modelled from the spec: the Graph data structure (src/replica/graph.ts
is absent from the provided sources).  It tracks the accepted entries and
the four partitions heads, tails, missing and denied of section 3. -/
structure Graph where
  accepted : List Nat
  heads : List Nat
  tails : List Nat
  missing : List Nat
  denied : List Nat
deriving DecidableEq

/-- Modelled from the spec: the empty Graph. -/
def Graph.empty : Graph :=
  { accepted := [], heads := [], tails := [], missing := [], denied := [] }

/-- Modelled from the spec: Graph.add inserts an entry.  Re-adding an
already accepted entry is a no-op and a denied hash is never
re-processed; otherwise the entry becomes an accepted head, its next
targets are demoted from head, unresolved next targets are placed into
missing, and the entry is a tail when none of its predecessors are held. -/
def Graph.add (g : Graph) (cid : Nat) (next : List Nat) : Graph :=
  if cid ∈ g.accepted ∨ cid ∈ g.denied then g
  else
    { accepted := linsert cid g.accepted
      heads := linsert cid (ldiff g.heads next)
      tails := if next.all (fun n => decide (n ∉ g.accepted)) then linsert cid g.tails else g.tails
      missing := lunion (next.filter (fun n => decide (n ∉ g.accepted) && decide (n ∉ g.denied)))
        (lerase cid g.missing)
      denied := g.denied }

/-- Modelled from the spec: Graph.deny marks the hash permanently denied
and removes it from the other partitions if present. -/
def Graph.deny (g : Graph) (cid : Nat) : Graph :=
  { accepted := lerase cid g.accepted
    heads := lerase cid g.heads
    tails := lerase cid g.tails
    missing := lerase cid g.missing
    denied := linsert cid g.denied }

/-- Modelled from the spec: membership query for accepted entries. -/
def Graph.hasCid (g : Graph) (cid : Nat) : Bool :=
  decide (cid ∈ g.accepted)

/-- Modelled from the spec: accepted-or-missing membership query. -/
def Graph.knownCid (g : Graph) (cid : Nat) : Bool :=
  decide (cid ∈ g.accepted ∨ cid ∈ g.missing)

/-- Modelled from the spec: the current GraphRoot value of a Graph. -/
def Graph.root (g : Graph) : GraphRoot :=
  { heads := g.heads, tails := g.tails, missing := g.missing, denied := g.denied }

/-- Modelled from the spec: structural equality over the four partitions,
used by Replica.add to detect whether a batch changed anything. -/
def Graph.equals (g other : Graph) : Bool :=
  decide (g.root = other.root)

/-- Modelled from the spec: the Graph constructed from an optional
persisted root; absent root yields the empty Graph. -/
def Graph.fromRoot : Option GraphRoot → Graph
  | none => Graph.empty
  | some r =>
    { accepted := lunion r.heads r.tails
      heads := r.heads
      tails := r.tails
      missing := r.missing
      denied := r.denied }

/-- The observable state of one Replica: the live graph, every block put
to the store, the in-memory root field, the persisted root pointer, the
PQueue contents and the ordered list of dispatched notifications. -/
structure ReplicaState where
  started : Bool
  graph : Graph
  blocksPut : List Blk
  root : Option GraphRoot
  persistedRoot : Option GraphRoot
  queue : List Nat
  events : List Ev
deriving DecidableEq

/-- The replica state right after the constructor ran: nothing persisted,
empty queue, not started. -/
def Replica.initial : ReplicaState :=
  { started := false
    graph := Graph.empty
    blocksPut := []
    root := none
    persistedRoot := none
    queue := []
    events := [] }

/-- Replica updateRoot: encode the current graph root, persist it through
setRoot, record it on the instance and dispatch the update notification. -/
def Replica.updateRoot (st : ReplicaState) : ReplicaState :=
  { st with
    blocksPut := st.blocksPut ++ [Blk.rootBlk st.graph.root]
    root := some st.graph.root
    persistedRoot := some st.graph.root
    events := st.events ++ [Ev.update] }

/-- One iteration of the entry loop in Replica.add: entries whose tag
mismatches the manifest tag are skipped with a warning; otherwise the
entry block and its signer identity block are persisted and the entry is
admitted via Graph.add when the access controller allows it, recorded
via Graph.deny when it does not. -/
def Replica.step (acc : Entry → Bool) (tag : List Nat) (st : ReplicaState) (e : Entry) : ReplicaState :=
  if e.tag = tag then
    { st with
      blocksPut := st.blocksPut ++ [Blk.entry e.cid, Blk.ident e.identityId]
      graph := if acc e then st.graph.add e.cid e.next else st.graph.deny e.cid }
  else st

/-- The pure per-entry effect of the Replica.add loop on the graph. -/
def admitStep (acc : Entry → Bool) (tag : List Nat) (g : Graph) (e : Entry) : Graph :=
  if e.tag = tag then (if acc e then g.add e.cid e.next else g.deny e.cid) else g

/-- Replica.add: snapshot the graph, process every entry of the batch,
then recompute and persist the root and dispatch update only when the
resulting graph differs structurally from the snapshot.  Reading the
graph of a replica that is not started throws. -/
def Replica.add (acc : Entry → Bool) (tag : List Nat) (st : ReplicaState) (es : List Entry) :
    ReplicaState × Except String Unit :=
  if st.started = false then
    (st, Except.error "Cannot read graph before replica is started")
  else
    let st1 := es.foldl (Replica.step acc tag) st
    (if st1.graph.equals st.graph then st1 else Replica.updateRoot st1, Except.ok ())

/-- Replica.write: fails on a replica that is not started; otherwise
creates an entry whose next set is the current heads, persists its
block, admits it through Replica.add and finally dispatches the write
notification. -/
def Replica.write (acc : Entry → Bool) (tag : List Nat) (st : ReplicaState)
    (payload : Nat) (newCid : Nat) (identityId : List Nat) :
    ReplicaState × Except String Entry :=
  if st.started = false then
    (st, Except.error "replica not started")
  else
    let entry : Entry :=
      { cid := newCid
        tag := tag
        payload := payload
        next := st.graph.heads
        identityId := identityId }
    let st1 := { st with blocksPut := st.blocksPut ++ [Blk.entry newCid] }
    let r := Replica.add acc tag st1 [entry]
    match r.2 with
    | Except.error s => (r.1, Except.error s)
    | Except.ok _ => ({ r.1 with events := r.1.events ++ [Ev.write] }, Except.ok entry)

/-- Replica.has: delegates to the graph, failing when not started. -/
def Replica.hasCid (st : ReplicaState) (cid : Nat) : Except String Bool :=
  if st.started = false then Except.error "replica not started"
  else Except.ok (st.graph.hasCid cid)

/-- Replica.known: delegates to the graph, failing when not started. -/
def Replica.knownCid (st : ReplicaState) (cid : Nat) : Except String Bool :=
  if st.started = false then Except.error "replica not started"
  else Except.ok (st.graph.knownCid cid)

/-- Result of a get on the datastore or blockstore collaborator. -/
inductive StoreResult (α : Type)
  | ok (val : α)
  | notFound
  | ioError
deriving DecidableEq

/-- getRoot from src/replica/index.ts: read the root pointer from the
datastore, read and decode the pointed-to block; any failure inside the
try block is rethrown as one failed-to-get-root error. -/
def getRoot (ds : StoreResult Nat) (bs : Nat → StoreResult GraphRoot) :
    Except String GraphRoot :=
  match ds with
  | StoreResult.ok h =>
    match bs h with
    | StoreResult.ok r => Except.ok r
    | _ => Except.error "failed to get root"
  | _ => Except.error "failed to get root"

/-- The starting routine of the Replica constructor: getRoot with every
failure swallowed by a catch that yields null, a Graph built from the
optional root value, then either an immediate root persist (root absent)
or adoption of the loaded root cid. -/
def Replica.starting (ds : StoreResult Nat) (bs : Nat → StoreResult GraphRoot)
    (st : ReplicaState) : ReplicaState :=
  match getRoot ds bs with
  | Except.error _ =>
    Replica.updateRoot { st with graph := Graph.fromRoot none, started := true }
  | Except.ok r =>
    { st with graph := Graph.fromRoot (some r), started := true, root := some r }

/-- Modelled from the spec: encodeHeads from utils/replicator.js (absent
from the provided sources) serializes the ordered list of head hashes as
a length-prefixed concatenation of the raw hash bytes. -/
def encodeHeads (heads : List (List Nat)) : List Nat :=
  heads.foldr (fun h acc => h.length :: h ++ acc) []

/-- Modelled from the spec: fuel-indexed worker for decodeHeads; reads a
length prefix, takes that many bytes as one hash, and fails on a
truncated message.  The fuel only bounds recursion depth and is chosen
at least the message length by decodeHeads. -/
def decodeChunks : Nat → List Nat → Option (List (List Nat))
  | _, [] => some []
  | 0, _ :: _ => none
  | fuel + 1, n :: rest =>
    if n ≤ rest.length then
      match decodeChunks fuel (rest.drop n) with
      | some hs => some (rest.take n :: hs)
      | none => none
    else none

/-- Modelled from the spec: decodeHeads validates the structure of a
received message and yields the hash list, or fails with a decode error. -/
def decodeHeads (bs : List Nat) : Option (List (List Nat)) :=
  decodeChunks bs.length bs

/-- The wildcard writer name granting access to every identity. -/
def wildcard : String := "*"

/-- Alphabet of the RFC 4648 lowercase base32 encoding used by the
multiformats base32 codec. -/
def base32Alphabet : List Char :=
  ['a', 'b', 'c', 'd', 'e', 'f', 'g', 'h', 'i', 'j', 'k', 'l', 'm',
   'n', 'o', 'p', 'q', 'r', 's', 't', 'u', 'v', 'w', 'x', 'y', 'z',
   '2', '3', '4', '5', '6', '7']

/-- The eight bits of one byte, most significant first. -/
def byteBits (n : Nat) : List Bool :=
  [n / 128 % 2 = 1, n / 64 % 2 = 1, n / 32 % 2 = 1, n / 16 % 2 = 1,
   n / 8 % 2 = 1, n / 4 % 2 = 1, n / 2 % 2 = 1, n % 2 = 1]

/-- Split a bit stream into 5-bit groups, zero-padding the last group. -/
def groups5 : List Bool → List (List Bool)
  | [] => []
  | [a] => [[a, false, false, false, false]]
  | [a, b] => [[a, b, false, false, false]]
  | [a, b, c] => [[a, b, c, false, false]]
  | [a, b, c, d] => [[a, b, c, d, false]]
  | a :: b :: c :: d :: e :: rest => [a, b, c, d, e] :: groups5 rest

/-- Value of a bit group, most significant bit first. -/
def bitsVal (l : List Bool) : Nat :=
  l.foldl (fun n b => 2 * n + (if b then 1 else 0)) 0

/-- Multibase base32 encoding of a byte string: the multibase prefix b
followed by the unpadded RFC 4648 lowercase base32 of the bytes. -/
def base32Encode (bytes : List Nat) : String :=
  String.mk ('b' :: (groups5 (bytes.flatMap byteBits)).map
    (fun g => base32Alphabet.getD (bitsVal g) 'a'))

/-- One element of manifest.access.config.write: either a string kept
as is or an identity id byte string. -/
inductive WriteEntry
  | str (s : String)
  | bytes (b : List Nat)

/-- The static access controller: its write set is fixed at
construction. -/
structure StaticAccess where
  write : List String

/-- The StaticAccess constructor: build the write set from the manifest
access config, base32-encoding the byte entries and keeping string
entries unchanged. -/
def StaticAccess.ofConfig (config : List WriteEntry) : StaticAccess :=
  { write := config.map (fun w =>
      match w with
      | WriteEntry.str s => s
      | WriteEntry.bytes b => base32Encode b) }

/-- StaticAccess.canAppend: the base32 encoding of the entry signer
identity id must be in the write set, or the write set holds the
wildcard. -/
def StaticAccess.canAppend (a : StaticAccess) (e : Entry) : Bool :=
  decide (base32Encode e.identityId ∈ a.write) || decide (wildcard ∈ a.write)

/-- The open and opening bookkeeping of one Welo factory instance:
addresses of open databases with their database instance, and addresses
currently being opened. -/
structure WeloState where
  opened : List (String × Nat)
  opening : List String
deriving DecidableEq

/-- Welo.open: throws when the address is already open or already being
opened; otherwise runs Database.open (its result is passed in as some
database id on success, none on failure), records a successful database
in the opened map and always clears the opening slot. -/
def Welo.openDb (st : WeloState) (addr : String) (openResult : Option Nat) :
    WeloState × Except String Nat :=
  if (List.lookup addr st.opened).isSome then
    (st, Except.error ("database " ++ addr ++ " is already open"))
  else if addr ∈ st.opening then
    (st, Except.error ("database " ++ addr ++ " is already being opened"))
  else
    match openResult with
    | some dbId =>
      ({ st with opened := (addr, dbId) :: st.opened }, Except.ok dbId)
    | none =>
      (st, Except.error ("failed opening database with address: " ++ addr))

/-- The once-listener Welo.open installs on the database closed event:
it removes the database from the opened map. -/
def Welo.onClosed (st : WeloState) (addr : String) : WeloState :=
  { st with opened := st.opened.filter (fun p => p.1 ≠ addr) }

/-- A started replica over the empty graph with empty history, as the
state right after a fresh database started. -/
def startedReplica : ReplicaState :=
  { started := true
    graph := Graph.empty
    blocksPut := []
    root := none
    persistedRoot := none
    queue := []
    events := [] }

/-- A started replica whose graph already holds the accepted entry 1. -/
def seededReplica : ReplicaState :=
  { started := true
    graph := { accepted := [1], heads := [1], tails := [1], missing := [], denied := [] }
    blocksPut := []
    root := none
    persistedRoot := none
    queue := []
    events := [] }

/-- A sample entry with hash 1, tag [0] and signer id [9]. -/
def sampleEntry : Entry :=
  { cid := 1, tag := [0], payload := 0, next := [], identityId := [9] }

/-- A datastore whose root pointer resolves to hash 5. -/
def okPointer : StoreResult Nat := StoreResult.ok 5

/-- A blockstore failing with an I/O error on every read. -/
def failingBlockstore : Nat → StoreResult GraphRoot := fun _ => StoreResult.ioError

/-- A blockstore holding one persisted root under hash 5. -/
def seededBlockstore : Nat → StoreResult GraphRoot := fun h =>
  if h = 5 then StoreResult.ok { heads := [3], tails := [2], missing := [], denied := [] }
  else StoreResult.notFound

/-- Membership in linsert. -/
theorem mem_linsert {a b : Nat} {l : List Nat} : a ∈ linsert b l ↔ a = b ∨ a ∈ l := by
  unfold linsert
  split
  · rename_i hb
    constructor
    · exact Or.inr
    · rintro (rfl | h)
      · exact hb
      · exact h
  · simp [List.mem_cons]

/-- Membership in lerase. -/
theorem mem_lerase {a b : Nat} {l : List Nat} : a ∈ lerase b l ↔ a ∈ l ∧ a ≠ b := by
  simp [lerase, List.mem_filter]

/-- Membership in ldiff. -/
theorem mem_ldiff {a : Nat} {l rem : List Nat} : a ∈ ldiff l rem ↔ a ∈ l ∧ a ∉ rem := by
  simp [ldiff, List.mem_filter]

/-- Membership in lunion. -/
theorem mem_lunion {a : Nat} {l1 l2 : List Nat} : a ∈ lunion l1 l2 ↔ a ∈ l1 ∨ a ∈ l2 := by
  simp [lunion, List.mem_append, List.mem_filter]
  tauto

/-- Inserting a present element changes nothing. -/
theorem linsert_eq_self {a : Nat} {l : List Nat} (h : a ∈ l) : linsert a l = l := by
  unfold linsert
  exact if_pos h

/-- Erasing an absent element changes nothing. -/
theorem lerase_eq_self {a : Nat} {l : List Nat} (h : a ∉ l) : lerase a l = l := by
  unfold lerase
  rw [List.filter_eq_self]
  intro x hx
  simp only [decide_eq_true_eq]
  exact fun hxa => h (hxa ▸ hx)

/-- Replica.step never touches the event list. -/
theorem step_events (acc : Entry → Bool) (tag : List Nat) (st : ReplicaState) (e : Entry) :
    (Replica.step acc tag st e).events = st.events := by
  unfold Replica.step
  split <;> rfl

/-- Replica.step never touches the started flag. -/
theorem step_started (acc : Entry → Bool) (tag : List Nat) (st : ReplicaState) (e : Entry) :
    (Replica.step acc tag st e).started = st.started := by
  unfold Replica.step
  split <;> rfl

/-- Replica.step never touches the root field. -/
theorem step_root (acc : Entry → Bool) (tag : List Nat) (st : ReplicaState) (e : Entry) :
    (Replica.step acc tag st e).root = st.root := by
  unfold Replica.step
  split <;> rfl

/-- Replica.step never touches the persisted root pointer. -/
theorem step_persistedRoot (acc : Entry → Bool) (tag : List Nat) (st : ReplicaState) (e : Entry) :
    (Replica.step acc tag st e).persistedRoot = st.persistedRoot := by
  unfold Replica.step
  split <;> rfl

/-- Replica.step never touches the mutation queue. -/
theorem step_queue (acc : Entry → Bool) (tag : List Nat) (st : ReplicaState) (e : Entry) :
    (Replica.step acc tag st e).queue = st.queue := by
  unfold Replica.step
  split <;> rfl

/-- The graph produced by Replica.step is the pure admitStep effect. -/
theorem step_graph (acc : Entry → Bool) (tag : List Nat) (st : ReplicaState) (e : Entry) :
    (Replica.step acc tag st e).graph = admitStep acc tag st.graph e := by
  unfold Replica.step admitStep
  split <;> rfl

/-- Folding Replica.step over a batch never touches the event list. -/
theorem foldl_step_events (acc : Entry → Bool) (tag : List Nat) :
    ∀ (es : List Entry) (st : ReplicaState),
      (es.foldl (Replica.step acc tag) st).events = st.events := by
  intro es
  induction es with
  | nil => intro st; rfl
  | cons e es ih => intro st; rw [List.foldl_cons, ih, step_events]

/-- Folding Replica.step over a batch never touches the started flag. -/
theorem foldl_step_started (acc : Entry → Bool) (tag : List Nat) :
    ∀ (es : List Entry) (st : ReplicaState),
      (es.foldl (Replica.step acc tag) st).started = st.started := by
  intro es
  induction es with
  | nil => intro st; rfl
  | cons e es ih => intro st; rw [List.foldl_cons, ih, step_started]

/-- Folding Replica.step over a batch never touches the root field. -/
theorem foldl_step_root (acc : Entry → Bool) (tag : List Nat) :
    ∀ (es : List Entry) (st : ReplicaState),
      (es.foldl (Replica.step acc tag) st).root = st.root := by
  intro es
  induction es with
  | nil => intro st; rfl
  | cons e es ih => intro st; rw [List.foldl_cons, ih, step_root]

/-- Folding Replica.step over a batch never touches the persisted root. -/
theorem foldl_step_persistedRoot (acc : Entry → Bool) (tag : List Nat) :
    ∀ (es : List Entry) (st : ReplicaState),
      (es.foldl (Replica.step acc tag) st).persistedRoot = st.persistedRoot := by
  intro es
  induction es with
  | nil => intro st; rfl
  | cons e es ih => intro st; rw [List.foldl_cons, ih, step_persistedRoot]

/-- Folding Replica.step over a batch never touches the mutation queue. -/
theorem foldl_step_queue (acc : Entry → Bool) (tag : List Nat) :
    ∀ (es : List Entry) (st : ReplicaState),
      (es.foldl (Replica.step acc tag) st).queue = st.queue := by
  intro es
  induction es with
  | nil => intro st; rfl
  | cons e es ih => intro st; rw [List.foldl_cons, ih, step_queue]

/-- The graph resulting from a folded batch is the pure admitStep fold. -/
theorem foldl_step_graph (acc : Entry → Bool) (tag : List Nat) :
    ∀ (es : List Entry) (st : ReplicaState),
      (es.foldl (Replica.step acc tag) st).graph = es.foldl (admitStep acc tag) st.graph := by
  intro es
  induction es with
  | nil => intro st; rfl
  | cons e es ih => intro st; rw [List.foldl_cons, ih, step_graph, List.foldl_cons]

/-- updateRoot keeps the graph unchanged. -/
theorem updateRoot_graph (st : ReplicaState) : (Replica.updateRoot st).graph = st.graph := rfl

/-- updateRoot keeps the started flag unchanged. -/
theorem updateRoot_started (st : ReplicaState) : (Replica.updateRoot st).started = st.started := rfl

/-- updateRoot keeps the mutation queue unchanged. -/
theorem updateRoot_queue (st : ReplicaState) : (Replica.updateRoot st).queue = st.queue := rfl

/-- Graph equality holds reflexively. -/
theorem graph_equals_self (g : Graph) : g.equals g = true := by
  simp [Graph.equals]

/-- Graph equality is exactly root equality. -/
theorem graph_equals_iff {g g2 : Graph} : g.equals g2 = true ↔ g.root = g2.root := by
  simp [Graph.equals]

/-- A denied hash that has been fully scrubbed from the other partitions. -/
def deniedClean (g : Graph) (c : Nat) : Prop :=
  c ∈ g.denied ∧ c ∉ g.accepted ∧ c ∉ g.heads ∧ c ∉ g.tails ∧ c ∉ g.missing

/-- An entry is settled in a graph when re-processing it cannot change
the graph: its tag mismatches, or it was admitted, or it was denied and
scrubbed. -/
def settled (acc : Entry → Bool) (tag : List Nat) (g : Graph) (e : Entry) : Prop :=
  e.tag ≠ tag ∨
    (acc e = true ∧ (e.cid ∈ g.accepted ∨ e.cid ∈ g.denied)) ∨
    (acc e = false ∧ deniedClean g e.cid)

/-- Membership in accepted-or-denied survives any admitStep. -/
theorem admit_union_mono (acc : Entry → Bool) (tag : List Nat) {g : Graph} {c : Nat}
    (h : c ∈ g.accepted ∨ c ∈ g.denied) (e : Entry) :
    c ∈ (admitStep acc tag g e).accepted ∨ c ∈ (admitStep acc tag g e).denied := by
  unfold admitStep
  split
  · split
    · unfold Graph.add
      split
      · exact h
      · rcases h with h | h
        · exact Or.inl (mem_linsert.2 (Or.inr h))
        · exact Or.inr h
    · unfold Graph.deny
      by_cases hc : c = e.cid
      · exact Or.inr (mem_linsert.2 (Or.inl hc))
      · rcases h with h | h
        · exact Or.inl (mem_lerase.2 ⟨h, hc⟩)
        · exact Or.inr (mem_linsert.2 (Or.inr h))
  · exact h

/-- A denied and scrubbed hash stays denied and scrubbed under any
admitStep: graph add never resurrects a denied hash and deny is
idempotent. -/
theorem admit_deniedClean (acc : Entry → Bool) (tag : List Nat) {g : Graph} {c : Nat}
    (h : deniedClean g c) (e : Entry) : deniedClean (admitStep acc tag g e) c := by
  obtain ⟨hd, ha, hh, ht, hm⟩ := h
  unfold admitStep
  split
  · split
    · unfold Graph.add
      split
      · exact ⟨hd, ha, hh, ht, hm⟩
      · rename_i hguard
        have hne : c ≠ e.cid := by
          rintro rfl
          exact hguard (Or.inr hd)
        refine ⟨hd, ?_, ?_, ?_, ?_⟩
        · intro hmem
          rcases mem_linsert.1 hmem with h1 | h1
          · exact hne h1
          · exact ha h1
        · intro hmem
          rcases mem_linsert.1 hmem with h1 | h1
          · exact hne h1
          · exact hh (mem_ldiff.1 h1).1
        · split
          · intro hmem
            rcases mem_linsert.1 hmem with h1 | h1
            · exact hne h1
            · exact ht h1
          · exact ht
        · intro hmem
          rcases mem_lunion.1 hmem with h1 | h1
          · rcases List.mem_filter.1 h1 with ⟨_, hp⟩
            simp only [Bool.and_eq_true, decide_eq_true_eq] at hp
            exact hp.2 hd
          · exact hm (mem_lerase.1 h1).1
    · unfold Graph.deny
      refine ⟨mem_linsert.2 (Or.inr hd), ?_, ?_, ?_, ?_⟩
      · intro hmem
        exact ha (mem_lerase.1 hmem).1
      · intro hmem
        exact hh (mem_lerase.1 hmem).1
      · intro hmem
        exact ht (mem_lerase.1 hmem).1
      · intro hmem
        exact hm (mem_lerase.1 hmem).1
  · exact ⟨hd, ha, hh, ht, hm⟩

/-- After its own admitStep an entry is settled. -/
theorem settled_after_step (acc : Entry → Bool) (tag : List Nat) (g : Graph) (e : Entry) :
    settled acc tag (admitStep acc tag g e) e := by
  by_cases htag : e.tag = tag
  · by_cases hacc : acc e
    · refine Or.inr (Or.inl ⟨hacc, ?_⟩)
      unfold admitStep
      rw [if_pos htag, if_pos hacc]
      unfold Graph.add
      split
      · rename_i hguard
        exact hguard
      · exact Or.inl (mem_linsert.2 (Or.inl rfl))
    · refine Or.inr (Or.inr ⟨by simpa using hacc, ?_⟩)
      unfold admitStep
      rw [if_pos htag, if_neg hacc]
      unfold Graph.deny
      refine ⟨mem_linsert.2 (Or.inl rfl), ?_, ?_, ?_, ?_⟩ <;>
        · intro hmem
          exact (mem_lerase.1 hmem).2 rfl
  · exact Or.inl htag

/-- Settledness of any entry survives any further admitStep. -/
theorem settled_mono (acc : Entry → Bool) (tag : List Nat) {g : Graph} {e : Entry}
    (h : settled acc tag g e) (e2 : Entry) : settled acc tag (admitStep acc tag g e2) e := by
  rcases h with h | h | h
  · exact Or.inl h
  · exact Or.inr (Or.inl ⟨h.1, admit_union_mono acc tag h.2 e2⟩)
  · exact Or.inr (Or.inr ⟨h.1, admit_deniedClean acc tag h.2 e2⟩)

/-- Settledness survives a whole folded batch. -/
theorem settled_foldl (acc : Entry → Bool) (tag : List Nat) :
    ∀ (es : List Entry) {g : Graph} {e : Entry}, settled acc tag g e →
      settled acc tag (es.foldl (admitStep acc tag) g) e := by
  intro es
  induction es with
  | nil => intro g e h; exact h
  | cons e2 es ih =>
    intro g e h
    rw [List.foldl_cons]
    exact ih (settled_mono acc tag h e2)

/-- Every entry of a batch is settled in the graph the batch produces. -/
theorem foldl_settled (acc : Entry → Bool) (tag : List Nat) :
    ∀ (es : List Entry) (g : Graph) (e : Entry), e ∈ es →
      settled acc tag (es.foldl (admitStep acc tag) g) e := by
  intro es
  induction es with
  | nil => intro g e h; cases h
  | cons e2 es ih =>
    intro g e h
    rw [List.foldl_cons]
    rcases List.mem_cons.1 h with rfl | h
    · exact settled_foldl acc tag es (settled_after_step acc tag g e)
    · exact ih (admitStep acc tag g e2) e h

/-- Processing a settled entry leaves the graph unchanged. -/
theorem admit_noop (acc : Entry → Bool) (tag : List Nat) {g : Graph} {e : Entry}
    (h : settled acc tag g e) : admitStep acc tag g e = g := by
  unfold admitStep
  rcases h with h | h | h
  · rw [if_neg h]
  · split
    · rw [if_pos h.1]
      unfold Graph.add
      rw [if_pos h.2]
    · rfl
  · split
    · rw [if_neg (by simp [h.1])]
      obtain ⟨hd, ha, hh, ht, hm⟩ := h.2
      unfold Graph.deny
      cases g
      simp only [Graph.mk.injEq]
      exact ⟨lerase_eq_self ha, lerase_eq_self hh, lerase_eq_self ht,
        lerase_eq_self hm, linsert_eq_self hd⟩
    · rfl

/-- A batch of settled entries leaves the graph unchanged. -/
theorem foldl_admit_noop (acc : Entry → Bool) (tag : List Nat) :
    ∀ (es : List Entry) (g : Graph), (∀ e ∈ es, settled acc tag g e) →
      es.foldl (admitStep acc tag) g = g := by
  intro es
  induction es with
  | nil => intro g _; rfl
  | cons e es ih =>
    intro g h
    rw [List.foldl_cons, admit_noop acc tag (h e (List.mem_cons_self e es))]
    exact ih g (fun e2 he2 => h e2 (List.mem_cons_of_mem e he2))

/-- Decoding succeeds on any encoded head list given enough fuel. -/
theorem decodeChunks_encode :
    ∀ (hs : List (List Nat)) (fuel : Nat), (encodeHeads hs).length ≤ fuel →
      decodeChunks fuel (encodeHeads hs) = some hs := by
  intro hs
  induction hs with
  | nil =>
    intro fuel _
    cases fuel <;> rfl
  | cons h t ih =>
    intro fuel hlen
    have henc : encodeHeads (h :: t) = h.length :: (h ++ encodeHeads t) := rfl
    rw [henc] at hlen ⊢
    simp only [List.length_cons, List.length_append] at hlen
    cases fuel with
    | zero => omega
    | succ f =>
      show decodeChunks (f + 1) (h.length :: (h ++ encodeHeads t)) = some (h :: t)
      unfold decodeChunks
      rw [if_pos (by simp [List.length_append])]
      rw [List.drop_left, List.take_left]
      rw [ih f (by omega)]

/-- Decoding only succeeds on exact encodings: whenever decodeChunks
yields a head list, re-encoding it reproduces the input bytes. -/
theorem encode_decodeChunks :
    ∀ (fuel : Nat) (bs : List Nat) (hs : List (List Nat)),
      decodeChunks fuel bs = some hs → encodeHeads hs = bs := by
  intro fuel
  induction fuel with
  | zero =>
    intro bs hs h
    cases bs with
    | nil =>
      cases h
      rfl
    | cons n rest => cases h
  | succ f ih =>
    intro bs hs h
    cases bs with
    | nil =>
      cases h
      rfl
    | cons n rest =>
      unfold decodeChunks at h
      by_cases hn : n ≤ rest.length
      · rw [if_pos hn] at h
        cases hrec : decodeChunks f (rest.drop n) with
        | none => rw [hrec] at h; cases h
        | some hs2 =>
          rw [hrec] at h
          cases h
          have henc := ih (rest.drop n) hs2 hrec
          show (rest.take n).length :: (rest.take n ++ encodeHeads hs2) = n :: rest
          rw [henc, List.take_append_drop, List.length_take]
          congr 1
          omega
      · rw [if_neg hn] at h
        cases h

/-- Admitting a fresh cid always changes the graph: the structural
equality test against the snapshot comes out false. -/
theorem admit_changes (acc : Entry → Bool) (tag : List Nat) {g : Graph} {e : Entry}
    (htag : e.tag = tag) (h1 : e.cid ∉ g.accepted) (h2 : e.cid ∉ g.denied)
    (h3 : e.cid ∉ g.heads) :
    Graph.equals (admitStep acc tag g e) g = false := by
  rw [Bool.eq_false_iff]
  intro heq
  have hroot := graph_equals_iff.1 heq
  unfold admitStep at hroot
  rw [if_pos htag] at hroot
  by_cases hacc : acc e
  · rw [if_pos hacc] at hroot
    unfold Graph.add at hroot
    rw [if_neg (by tauto)] at hroot
    have hh : linsert e.cid (ldiff g.heads e.next) = g.heads := congrArg GraphRoot.heads hroot
    exact h3 (hh ▸ mem_linsert.2 (Or.inl rfl))
  · rw [if_neg hacc] at hroot
    unfold Graph.deny at hroot
    have hd : linsert e.cid g.denied = g.denied := congrArg GraphRoot.denied hroot
    exact h2 (hd ▸ mem_linsert.2 (Or.inl rfl))

/-- Adding a single fresh, tag-matching entry persists a new root and
dispatches exactly one update notification. -/
theorem add_fresh_single (acc : Entry → Bool) (tag : List Nat) (st : ReplicaState) (e : Entry)
    (hs : st.started = true) (htag : e.tag = tag) (h1 : e.cid ∉ st.graph.accepted)
    (h2 : e.cid ∉ st.graph.denied) (h3 : e.cid ∉ st.graph.heads) :
    (Replica.add acc tag st [e]).1.events = st.events ++ [Ev.update] ∧
    (Replica.add acc tag st [e]).2 = Except.ok () := by
  unfold Replica.add
  rw [if_neg (by simp [hs])]
  simp only [List.foldl_cons, List.foldl_nil]
  rw [step_graph]
  rw [admit_changes acc tag htag h1 h2 h3]
  simp only [Bool.false_eq_true, if_false]
  exact ⟨by simp [Replica.updateRoot, step_events], trivial⟩

/-- Looking up a key in a list from which it was filtered out fails. -/
theorem lookup_filter_ne (addr : String) :
    ∀ l : List (String × Nat),
      List.lookup addr (l.filter (fun p => p.1 ≠ addr)) = none := by
  intro l
  induction l with
  | nil => rfl
  | cons p l ih =>
    by_cases hp : p.1 = addr
    · rw [List.filter_cons_of_neg (by simp [hp])]
      exact ih
    · rw [List.filter_cons_of_pos (by simp [hp])]
      rw [List.lookup_cons]
      have : (addr == p.1) = false := by
        simp only [beq_eq_false_iff_ne, ne_eq]
        exact fun h => hp h.symm
      rw [this]
      exact ih

/-- C1 counterexample: on a fresh started replica a successful
Replica.write produces the notification trace [update, write]: the
update notification (dispatched while the new root is persisted inside
the add path) strictly precedes the write notification, so the claim
that the write notification is delivered before the update notification
is false on this input. -/
theorem c1_counterexample :
    (Replica.write (fun _ => true) [0] startedReplica 0 7 [1]).1.events
      = [Ev.update, Ev.write] ∧
    List.indexOf Ev.update (Replica.write (fun _ => true) [0] startedReplica 0 7 [1]).1.events
      < List.indexOf Ev.write (Replica.write (fun _ => true) [0] startedReplica 0 7 [1]).1.events := by
  decide

/-- C1 (amended): every successful Replica.write of a fresh entry emits
both notifications, but in the order update then write: the new root is
persisted and the update notification dispatched inside the add call,
and the write notification is dispatched only after add resolves. -/
theorem c1_write_update_order (acc : Entry → Bool) (tag : List Nat) (st : ReplicaState)
    (payload newCid : Nat) (identityId : List Nat) (hs : st.started = true)
    (h1 : newCid ∉ st.graph.accepted) (h2 : newCid ∉ st.graph.denied)
    (h3 : newCid ∉ st.graph.heads) :
    (Replica.write acc tag st payload newCid identityId).1.events
      = st.events ++ [Ev.update, Ev.write] ∧
    (Replica.write acc tag st payload newCid identityId).2
      = Except.ok
          { cid := newCid, tag := tag, payload := payload,
            next := st.graph.heads, identityId := identityId } := by
  have hadd := add_fresh_single acc tag
    { st with blocksPut := st.blocksPut ++ [Blk.entry newCid] }
    { cid := newCid, tag := tag, payload := payload,
      next := st.graph.heads, identityId := identityId }
    hs rfl h1 h2 h3
  unfold Replica.write
  rw [if_neg (by simp [hs])]
  simp only []
  rw [hadd.2]
  simp only []
  rw [hadd.1]
  constructor
  · simp
  · trivial

/-- C1 witness: the amended ordering theorem applied to a concrete
started replica with a fresh entry hash. -/
theorem c1_witness :
    startedReplica.started = true ∧
    (Replica.write (fun _ => true) [0] startedReplica 0 7 [1]).1.events
      = startedReplica.events ++ [Ev.update, Ev.write] :=
  ⟨rfl, (c1_write_update_order (fun _ => true) [0] startedReplica 0 7 [1] rfl
    (by decide) (by decide) (by decide)).1⟩

/-- C2 counterexample: the root pointer resolves to hash 5 but the
blockstore read fails with an I/O error; startup nevertheless completes
normally with an empty Graph and persists a fresh empty root, so the
claim that a pointer-exists-but-unreadable failure is fatal and prevents
the replica from starting is false on this input. -/
theorem c2_counterexample :
    okPointer = StoreResult.ok 5 ∧
    failingBlockstore 5 = StoreResult.ioError ∧
    (Replica.starting okPointer failingBlockstore Replica.initial).started = true ∧
    (Replica.starting okPointer failingBlockstore Replica.initial).graph = Graph.empty ∧
    (Replica.starting okPointer failingBlockstore Replica.initial).persistedRoot
      = some Graph.empty.root :=
  ⟨rfl, rfl, rfl, rfl, rfl⟩

/-- C2 (amended): the catch in the starting routine swallows every
getRoot failure, so on any failure to load the persisted root (absent
pointer or unreadable block alike) the replica starts with an empty
Graph and immediately persists an empty root; no read failure is fatal.
On success the Graph is built from the loaded root and its cid adopted. -/
theorem c2_root_failures_nonfatal (ds : StoreResult Nat) (bs : Nat → StoreResult GraphRoot)
    (st : ReplicaState) :
    ((∀ r, getRoot ds bs ≠ Except.ok r) →
      (Replica.starting ds bs st).started = true ∧
      (Replica.starting ds bs st).graph = Graph.empty ∧
      (Replica.starting ds bs st).persistedRoot = some Graph.empty.root ∧
      (Replica.starting ds bs st).blocksPut = st.blocksPut ++ [Blk.rootBlk Graph.empty.root]) ∧
    (∀ r, getRoot ds bs = Except.ok r →
      (Replica.starting ds bs st).started = true ∧
      (Replica.starting ds bs st).graph = Graph.fromRoot (some r) ∧
      (Replica.starting ds bs st).root = some r) := by
  constructor
  · intro hfail
    cases hget : getRoot ds bs with
    | ok r => exact absurd hget (hfail r)
    | error s =>
      unfold Replica.starting
      rw [hget]
      exact ⟨rfl, rfl, rfl, rfl⟩
  · intro r hget
    unfold Replica.starting
    rw [hget]
    exact ⟨rfl, rfl, rfl⟩

/-- C2 witness: the amended theorem applied to a failing read (pointer
ok, block unreadable) and to a successful read of a seeded root. -/
theorem c2_witness :
    ((Replica.starting okPointer failingBlockstore Replica.initial).graph = Graph.empty ∧
      (Replica.starting okPointer failingBlockstore Replica.initial).persistedRoot
        = some Graph.empty.root) ∧
    (Replica.starting okPointer seededBlockstore Replica.initial).graph
      = Graph.fromRoot (some { heads := [3], tails := [2], missing := [], denied := [] }) :=
  ⟨⟨((c2_root_failures_nonfatal okPointer failingBlockstore Replica.initial).1
      (fun _ h => Except.noConfusion h)).2.1,
    ((c2_root_failures_nonfatal okPointer failingBlockstore Replica.initial).1
      (fun _ h => Except.noConfusion h)).2.2.1⟩,
   ((c2_root_failures_nonfatal okPointer seededBlockstore Replica.initial).2
      { heads := [3], tails := [2], missing := [], denied := [] } rfl).2.1⟩

/-- C3: Replica.add compares the batch result against the pre-batch
snapshot; if the structural equality holds nothing is persisted and no
update notification fires, and repeating an identical batch leaves the
graph, the event trace and the persisted root untouched. -/
theorem c3_add_idempotent (acc : Entry → Bool) (tag : List Nat) (st : ReplicaState)
    (es : List Entry) (hs : st.started = true) :
    (Graph.equals (es.foldl (Replica.step acc tag) st).graph st.graph = true →
      (Replica.add acc tag st es).1.events = st.events ∧
      (Replica.add acc tag st es).1.root = st.root ∧
      (Replica.add acc tag st es).1.persistedRoot = st.persistedRoot) ∧
    ((Replica.add acc tag (Replica.add acc tag st es).1 es).1.graph
        = (Replica.add acc tag st es).1.graph ∧
     (Replica.add acc tag (Replica.add acc tag st es).1 es).1.events
        = (Replica.add acc tag st es).1.events ∧
     (Replica.add acc tag (Replica.add acc tag st es).1 es).1.persistedRoot
        = (Replica.add acc tag st es).1.persistedRoot) := by
  constructor
  · intro heq
    unfold Replica.add
    rw [if_neg (by simp [hs])]
    simp only [heq, if_true]
    exact ⟨foldl_step_events acc tag es st, foldl_step_root acc tag es st,
      foldl_step_persistedRoot acc tag es st⟩
  · have ha1 : (Replica.add acc tag st es).1.started = true := by
      unfold Replica.add
      rw [if_neg (by simp [hs])]
      show (if (List.foldl (Replica.step acc tag) st es).graph.equals st.graph = true then
          List.foldl (Replica.step acc tag) st es
        else Replica.updateRoot (List.foldl (Replica.step acc tag) st es)).started = true
      split
      · rw [foldl_step_started acc tag es st]
        exact hs
      · rw [updateRoot_started, foldl_step_started acc tag es st]
        exact hs
    have hg1 : (Replica.add acc tag st es).1.graph
        = es.foldl (admitStep acc tag) st.graph := by
      unfold Replica.add
      rw [if_neg (by simp [hs])]
      show (if (List.foldl (Replica.step acc tag) st es).graph.equals st.graph = true then
          List.foldl (Replica.step acc tag) st es
        else Replica.updateRoot (List.foldl (Replica.step acc tag) st es)).graph
        = es.foldl (admitStep acc tag) st.graph
      split
      · exact foldl_step_graph acc tag es st
      · rw [updateRoot_graph, foldl_step_graph acc tag es st]
    have hsettled : ∀ e ∈ es, settled acc tag (Replica.add acc tag st es).1.graph e := by
      intro e he
      rw [hg1]
      exact foldl_settled acc tag es st.graph e he
    have hgfold : (es.foldl (Replica.step acc tag) (Replica.add acc tag st es).1).graph
        = (Replica.add acc tag st es).1.graph := by
      rw [foldl_step_graph acc tag es (Replica.add acc tag st es).1]
      exact foldl_admit_noop acc tag es (Replica.add acc tag st es).1.graph hsettled
    generalize hA : (Replica.add acc tag st es).1 = A1 at ha1 hgfold ⊢
    have hmain : (Replica.add acc tag A1 es).1
        = es.foldl (Replica.step acc tag) A1 := by
      unfold Replica.add
      rw [if_neg (by simp [ha1])]
      show (if (List.foldl (Replica.step acc tag) A1 es).graph.equals A1.graph = true then
          List.foldl (Replica.step acc tag) A1 es
        else Replica.updateRoot (List.foldl (Replica.step acc tag) A1 es))
        = es.foldl (Replica.step acc tag) A1
      rw [if_pos]
      rw [hgfold]
      exact graph_equals_self A1.graph
    rw [hmain]
    exact ⟨hgfold, foldl_step_events acc tag es A1, foldl_step_persistedRoot acc tag es A1⟩

/-- C3 witness: the idempotence theorem applied to a replica already
holding the accepted entry 1 and a batch re-adding that same entry; the
second run keeps graph, events and persisted root unchanged. -/
theorem c3_witness :
    ((Replica.add (fun _ => true) [0] seededReplica [sampleEntry]).1.events
        = seededReplica.events ∧
      (Replica.add (fun _ => true) [0] seededReplica [sampleEntry]).1.persistedRoot
        = seededReplica.persistedRoot) ∧
    (Replica.add (fun _ => true) [0]
        (Replica.add (fun _ => true) [0] seededReplica [sampleEntry]).1 [sampleEntry]).1.graph
      = (Replica.add (fun _ => true) [0] seededReplica [sampleEntry]).1.graph :=
  ⟨⟨((c3_add_idempotent (fun _ => true) [0] seededReplica [sampleEntry] rfl).1 (by decide)).1,
    ((c3_add_idempotent (fun _ => true) [0] seededReplica [sampleEntry] rfl).1 (by decide)).2.2⟩,
   (c3_add_idempotent (fun _ => true) [0] seededReplica [sampleEntry] rfl).2.1⟩

/-- C4: the graph a Replica.add batch produces is exactly the fold of
the per-entry admission step, and for every tag-matching entry that
step is Graph.add precisely when the access controller canAppend
predicate returns true and Graph.deny precisely when it returns false. -/
theorem c4_canAppend_decides (acc : Entry → Bool) (tag : List Nat) (st : ReplicaState)
    (es : List Entry) (hs : st.started = true) :
    (Replica.add acc tag st es).1.graph = es.foldl (admitStep acc tag) st.graph ∧
    (∀ (g : Graph) (e : Entry), e.tag = tag →
      admitStep acc tag g e
        = (if acc e then g.add e.cid e.next else g.deny e.cid)) := by
  constructor
  · unfold Replica.add
    rw [if_neg (by simp [hs])]
    show (if (List.foldl (Replica.step acc tag) st es).graph.equals st.graph = true then
        List.foldl (Replica.step acc tag) st es
      else Replica.updateRoot (List.foldl (Replica.step acc tag) st es)).graph
      = es.foldl (admitStep acc tag) st.graph
    split
    · exact foldl_step_graph acc tag es st
    · rw [updateRoot_graph, foldl_step_graph acc tag es st]
  · intro g e htag
    unfold admitStep
    rw [if_pos htag]

/-- C4 witness: the admission theorem applied to a started replica and a
batch holding one allowed entry. -/
theorem c4_witness :
    (Replica.add (fun _ => true) [0] startedReplica [sampleEntry]).1.graph
      = [sampleEntry].foldl (admitStep (fun _ => true) [0]) startedReplica.graph ∧
    admitStep (fun e => e.payload = 1) [0] Graph.empty sampleEntry
      = (if sampleEntry.payload = 1 then Graph.empty.add sampleEntry.cid sampleEntry.next
         else Graph.empty.deny sampleEntry.cid) :=
  ⟨(c4_canAppend_decides (fun _ => true) [0] startedReplica [sampleEntry] rfl).1,
   (c4_canAppend_decides (fun e => e.payload = 1) [0] startedReplica [sampleEntry] rfl).2
     Graph.empty sampleEntry rfl⟩

/-- C5: an entry whose tag mismatches the manifest tag is skipped whole:
its blocks are not persisted, it reaches neither Graph.add nor
Graph.deny (the step leaves the state untouched), and the rest of the
batch is processed exactly as if the entry were absent. -/
theorem c5_tag_mismatch_skip (acc : Entry → Bool) (tag : List Nat) (st : ReplicaState)
    (e : Entry) (es1 es2 : List Entry) (h : e.tag ≠ tag) :
    Replica.step acc tag st e = st ∧
    Replica.add acc tag st (es1 ++ e :: es2) = Replica.add acc tag st (es1 ++ es2) := by
  have hstep : ∀ st0 : ReplicaState, Replica.step acc tag st0 e = st0 := by
    intro st0
    unfold Replica.step
    rw [if_neg h]
  refine ⟨hstep st, ?_⟩
  unfold Replica.add
  have hfold : (es1 ++ e :: es2).foldl (Replica.step acc tag) st
      = (es1 ++ es2).foldl (Replica.step acc tag) st := by
    rw [List.foldl_append, List.foldl_append, List.foldl_cons, hstep]
  rw [hfold]

/-- C5 witness: the skip theorem applied to a concrete mismatched entry
inside a batch. -/
theorem c5_witness :
    Replica.step (fun _ => true) [0] startedReplica
        { cid := 2, tag := [9], payload := 0, next := [], identityId := [1] }
      = startedReplica ∧
    Replica.add (fun _ => true) [0] startedReplica
        ([sampleEntry] ++ { cid := 2, tag := [9], payload := 0, next := [], identityId := [1] } :: [])
      = Replica.add (fun _ => true) [0] startedReplica ([sampleEntry] ++ []) :=
  c5_tag_mismatch_skip (fun _ => true) [0] startedReplica
    { cid := 2, tag := [9], payload := 0, next := [], identityId := [1] }
    [sampleEntry] [] (by decide)

/-- C6: on a replica that is not started, write fails with the not
started error and leaves the state untouched (so no block is persisted),
and has and known fail with the same not started error. -/
theorem c6_not_started_guard (acc : Entry → Bool) (tag : List Nat) (st : ReplicaState)
    (payload newCid cid : Nat) (identityId : List Nat) (h : st.started = false) :
    Replica.write acc tag st payload newCid identityId
      = (st, Except.error "replica not started") ∧
    Replica.hasCid st cid = Except.error "replica not started" ∧
    Replica.knownCid st cid = Except.error "replica not started" := by
  refine ⟨?_, ?_, ?_⟩
  · unfold Replica.write
    rw [if_pos h]
  · unfold Replica.hasCid
    rw [if_pos h]
  · unfold Replica.knownCid
    rw [if_pos h]

/-- C6 witness: the guard theorem applied to the freshly constructed,
not yet started replica. -/
theorem c6_witness :
    Replica.write (fun _ => true) [0] Replica.initial 0 7 [1]
      = (Replica.initial, Except.error "replica not started") ∧
    Replica.hasCid Replica.initial 7 = Except.error "replica not started" ∧
    Replica.knownCid Replica.initial 7 = Except.error "replica not started" :=
  c6_not_started_guard (fun _ => true) [0] Replica.initial 0 7 7 [1] rfl

/-- C7: the head codec round-trips: decoding an encoded ordered head
hash list returns exactly the original list (for every list, so in
particular for 0, 1 and 50 heads), and decoding succeeds only on exact
encodings, so a structurally malformed message fails with a decode
error rather than yielding a wrong list. -/
theorem c7_head_codec_roundtrip :
    (∀ heads : List (List Nat), decodeHeads (encodeHeads heads) = some heads) ∧
    (∀ (bs : List Nat) (heads : List (List Nat)),
      decodeHeads bs = some heads → encodeHeads heads = bs) :=
  ⟨fun heads => decodeChunks_encode heads (encodeHeads heads).length (le_refl _),
   fun bs heads h => encode_decodeChunks bs.length bs heads h⟩

/-- C7 witness: round trips for zero, one and fifty heads, and the
decode-only-on-images direction applied to a concrete message. -/
theorem c7_witness :
    decodeHeads (encodeHeads []) = some [] ∧
    decodeHeads (encodeHeads [[1, 2, 3]]) = some [[1, 2, 3]] ∧
    decodeHeads (encodeHeads (List.replicate 50 [7])) = some (List.replicate 50 [7]) ∧
    encodeHeads [[9]] = [1, 9] :=
  ⟨c7_head_codec_roundtrip.1 [], c7_head_codec_roundtrip.1 [[1, 2, 3]],
   c7_head_codec_roundtrip.1 (List.replicate 50 [7]),
   c7_head_codec_roundtrip.2 [1, 9] [[9]] (by rfl)⟩

/-- C8: the mutation queue is never used by the mutations themselves:
Replica.add and Replica.write leave the queue of the state exactly as
they found it in every case, and a batch that does change the graph
runs with the queue still empty, so the queue the stopping routine
drains never holds the in-flight mutation. -/
theorem c8_mutations_bypass_queue :
    (∀ (acc : Entry → Bool) (tag : List Nat) (st : ReplicaState) (es : List Entry),
      (Replica.add acc tag st es).1.queue = st.queue) ∧
    (∀ (acc : Entry → Bool) (tag : List Nat) (st : ReplicaState)
        (payload newCid : Nat) (identityId : List Nat),
      (Replica.write acc tag st payload newCid identityId).1.queue = st.queue) ∧
    ((Replica.add (fun _ => true) [0] startedReplica [sampleEntry]).1.graph
        ≠ startedReplica.graph ∧
      (Replica.add (fun _ => true) [0] startedReplica [sampleEntry]).1.queue = [] ∧
      startedReplica.queue = []) := by
  have hadd : ∀ (acc : Entry → Bool) (tag : List Nat) (st : ReplicaState) (es : List Entry),
      (Replica.add acc tag st es).1.queue = st.queue := by
    intro acc tag st es
    by_cases hb : st.started = false
    · unfold Replica.add
      rw [if_pos hb]
    · unfold Replica.add
      rw [if_neg hb]
      show (if (List.foldl (Replica.step acc tag) st es).graph.equals st.graph = true then
          List.foldl (Replica.step acc tag) st es
        else Replica.updateRoot (List.foldl (Replica.step acc tag) st es)).queue = st.queue
      split
      · exact foldl_step_queue acc tag es st
      · rw [updateRoot_queue, foldl_step_queue acc tag es st]
  refine ⟨hadd, ?_, by decide, hadd (fun _ => true) [0] startedReplica [sampleEntry], rfl⟩
  intro acc tag st payload newCid identityId
  by_cases hb : st.started = false
  · unfold Replica.write
    rw [if_pos hb]
  · have hs : st.started = true := by
      revert hb
      cases st.started <;> simp
    have hsnd : (Replica.add acc tag
        { st with blocksPut := st.blocksPut ++ [Blk.entry newCid] }
        [{ cid := newCid, tag := tag, payload := payload,
           next := st.graph.heads, identityId := identityId }]).2 = Except.ok () := by
      unfold Replica.add
      rw [if_neg (by simp [hs])]
    unfold Replica.write
    rw [if_neg hb]
    simp only []
    rw [hsnd]
    simp only []
    rw [hadd]

/-- C9: StaticAccess.canAppend returns true exactly when the base32
encoding of the entry signer identity id is a member of the write set
fixed at construction from the manifest config, or that set holds the
wildcard; the verdict depends only on the identity id, so entries with
the same signer id always receive the same answer. -/
theorem c9_static_access_membership (config : List WriteEntry) (e e2 : Entry) :
    ((StaticAccess.ofConfig config).canAppend e = true ↔
      base32Encode e.identityId ∈ (StaticAccess.ofConfig config).write ∨
        wildcard ∈ (StaticAccess.ofConfig config).write) ∧
    (e.identityId = e2.identityId →
      (StaticAccess.ofConfig config).canAppend e
        = (StaticAccess.ofConfig config).canAppend e2) := by
  constructor
  · simp [StaticAccess.canAppend]
  · intro h
    unfold StaticAccess.canAppend
    rw [h]

/-- C9 witness: the membership theorem applied to a write set built
from the byte id [9] and to two distinct entries sharing that signer. -/
theorem c9_witness :
    ((StaticAccess.ofConfig [WriteEntry.bytes [9]]).canAppend sampleEntry = true ↔
      base32Encode sampleEntry.identityId
          ∈ (StaticAccess.ofConfig [WriteEntry.bytes [9]]).write ∨
        wildcard ∈ (StaticAccess.ofConfig [WriteEntry.bytes [9]]).write) ∧
    (StaticAccess.ofConfig [WriteEntry.bytes [9]]).canAppend sampleEntry
      = (StaticAccess.ofConfig [WriteEntry.bytes [9]]).canAppend
          { cid := 5, tag := [4], payload := 8, next := [2], identityId := [9] } :=
  ⟨(c9_static_access_membership [WriteEntry.bytes [9]] sampleEntry sampleEntry).1,
   (c9_static_access_membership [WriteEntry.bytes [9]] sampleEntry
      { cid := 5, tag := [4], payload := 8, next := [2], identityId := [9] }).2 rfl⟩

/-- C10: Welo.open fails when the requested manifest address is already
open or currently being opened, leaving the bookkeeping untouched and
returning no database instance; a successful open is recorded in the
opened map under its address, and the closed listener removes the
address from the opened map again. -/
theorem c10_open_guard (st : WeloState) (addr : String) (r : Option Nat) (d dbId : Nat) :
    (List.lookup addr st.opened = some d →
      Welo.openDb st addr r
        = (st, Except.error ("database " ++ addr ++ " is already open"))) ∧
    (List.lookup addr st.opened = none → addr ∈ st.opening →
      Welo.openDb st addr r
        = (st, Except.error ("database " ++ addr ++ " is already being opened"))) ∧
    (List.lookup addr st.opened = none → addr ∉ st.opening →
      Welo.openDb st addr (some dbId)
        = ({ st with opened := (addr, dbId) :: st.opened }, Except.ok dbId) ∧
      List.lookup addr (Welo.openDb st addr (some dbId)).1.opened = some dbId) ∧
    List.lookup addr (Welo.onClosed st addr).opened = none := by
  refine ⟨?_, ?_, ?_, ?_⟩
  · intro h
    unfold Welo.openDb
    rw [if_pos (by simp [h])]
  · intro h1 h2
    unfold Welo.openDb
    rw [if_neg (by simp [h1]), if_pos h2]
  · intro h1 h2
    have hmain : Welo.openDb st addr (some dbId)
        = ({ st with opened := (addr, dbId) :: st.opened }, Except.ok dbId) := by
      unfold Welo.openDb
      rw [if_neg (by simp [h1]), if_neg h2]
    refine ⟨hmain, ?_⟩
    rw [hmain]
    simp [List.lookup]
  · exact lookup_filter_ne addr st.opened

/-- C10 witness: the open guard theorem applied to an already open
address, an address mid-open, a fresh open and a close notification. -/
theorem c10_witness :
    Welo.openDb { opened := [("a", 1)], opening := [] } "a" (some 2)
      = ({ opened := [("a", 1)], opening := [] },
         Except.error ("database " ++ "a" ++ " is already open")) ∧
    Welo.openDb { opened := [], opening := ["b"] } "b" (some 2)
      = ({ opened := [], opening := ["b"] },
         Except.error ("database " ++ "b" ++ " is already being opened")) ∧
    Welo.openDb { opened := [], opening := [] } "c" (some 2)
      = ({ opened := [("c", 2)], opening := [] }, Except.ok 2) ∧
    List.lookup "a" (Welo.onClosed { opened := [("a", 1)], opening := [] } "a").opened
      = none :=
  ⟨(c10_open_guard { opened := [("a", 1)], opening := [] } "a" (some 2) 1 2).1 rfl,
   (c10_open_guard { opened := [], opening := ["b"] } "b" (some 2) 1 2).2.1 rfl
     (by decide),
   ((c10_open_guard { opened := [], opening := [] } "c" (some 2) 1 2).2.2.1 rfl
     (by decide)).1,
   (c10_open_guard { opened := [("a", 1)], opening := [] } "a" (some 2) 1 2).2.2.2⟩
